import Mathlib

/-!
Shallow embedding of the covid19 case-data pipeline
(src/case_tracker.py, src/read_in_data.py, src/constants.py).

Tables are lists of records.  The pandas operations are translated as
follows: `sort_values` becomes an insertion sort by the same key,
`groupby(k)` becomes grouping over a deduplicated key list, `nlargest(n)`
becomes a descending sort followed by `take n`, `Series.min()` becomes
`List.min?` (`none` plays the role of the NaN produced on an empty
series), a left merge on a unique-keyed right table becomes a per-key
lookup, and a table operation that raises (`.iloc[-1]` on an empty
selection) returns `none` at table level.  Missing strings are
represented by `""` exactly as `clean_up` and the readers fill them;
the numeric NA and the IEEE specials produced by the per-capita division
are the `PCVal` type.  Dates are rationals counting days (the source
stores timestamps; timestamp subtraction followed by
`total_seconds() / 86400` is then plain subtraction).
-/

namespace Covid

/-- constants.py, class CaseTypes: CONFIRMED. -/
def confirmedCT : String := "Cases"

/-- constants.py, class CaseTypes: DEATHS. -/
def deathsCT : String := "Deaths"

/-- constants.py, class CaseTypes: CONFIRMED_PER_CAPITA. -/
def confirmedPerCapitaCT : String := "Cases Per Cap."

/-- constants.py, class CaseTypes: DEATHS_PER_CAPITA. -/
def deathsPerCapitaCT : String := "Deaths Per Cap."

/-- constants.py, class Locations: WORLD. -/
def worldLoc : String := "World"

/-- constants.py, class Locations: WORLD_MINUS_CHINA. -/
def worldMinusChinaLoc : String := "Non-China"

/-- constants.py, class Locations: CHINA. -/
def chinaLoc : String := "China"

/-- One row of the long-format table consumed by case_tracker.py after
clean_up: the columns that its pipeline reads.  `state` is `""` on
country-level rows (the readers fill missing strings), `location` is the
LOCATION_NAME column (state if present, else country), `date` counts days. -/
structure Row where
  country : String
  state : String
  location : String
  isState : Bool
  date : ℚ
  caseType : String
  caseCount : ℚ
  deriving DecidableEq

/-- Code-point lexicographic order on strings, the order pandas uses when
sorting a string column. -/
def strLt (a b : String) : Prop := a.data < b.data

instance : DecidableRel strLt := fun a b => by unfold strLt; exact inferInstance

/-- The ascending sort key of clean_up (case_tracker.py):
(LOCATION_NAME, DATE, CASE_TYPE). -/
def keyLe (r s : Row) : Prop :=
  strLt r.location s.location ∨ r.location = s.location ∧
    (r.date < s.date ∨ r.date = s.date ∧
      (strLt r.caseType s.caseType ∨ r.caseType = s.caseType))

instance : DecidableRel keyLe := fun r s => by unfold keyLe; exact inferInstance

instance : IsTotal Row keyLe := by
  constructor
  intro r s
  have htri : ∀ a b : String, strLt a b ∨ a = b ∨ strLt b a := by
    intro a b
    rcases lt_trichotomy a.data b.data with h | h | h
    · exact Or.inl h
    · refine Or.inr (Or.inl ?_)
      cases a; cases b
      exact congrArg String.mk h
    · exact Or.inr (Or.inr h)
  rcases htri r.location s.location with h | h | h
  · exact Or.inl (Or.inl h)
  · rcases lt_trichotomy r.date s.date with h2 | h2 | h2
    · exact Or.inl (Or.inr ⟨h, Or.inl h2⟩)
    · rcases htri r.caseType s.caseType with h3 | h3 | h3
      · exact Or.inl (Or.inr ⟨h, Or.inr ⟨h2, Or.inl h3⟩⟩)
      · exact Or.inl (Or.inr ⟨h, Or.inr ⟨h2, Or.inr h3⟩⟩)
      · exact Or.inr (Or.inr ⟨h.symm, Or.inr ⟨h2.symm, Or.inl h3⟩⟩)
    · exact Or.inr (Or.inr ⟨h.symm, Or.inl h2⟩)
  · exact Or.inr (Or.inl h)

instance : IsTrans Row keyLe := by
  constructor
  intro a b c hab hbc
  rcases hab with h1 | ⟨e1, h1⟩
  · rcases hbc with h2 | ⟨e2, h2⟩
    · exact Or.inl (lt_trans h1 h2)
    · exact Or.inl (e2 ▸ h1)
  · rcases hbc with h2 | ⟨e2, h2⟩
    · exact Or.inl (e1 ▸ h2)
    · refine Or.inr ⟨e1.trans e2, ?_⟩
      rcases h1 with d1 | ⟨d1, t1⟩
      · rcases h2 with d2 | ⟨d2, _⟩
        · exact Or.inl (lt_trans d1 d2)
        · exact Or.inl (d2 ▸ d1)
      · rcases h2 with d2 | ⟨d2, t2⟩
        · exact Or.inl (d1 ▸ d2)
        · refine Or.inr ⟨d1.trans d2, ?_⟩
          rcases t1 with s1 | s1
          · rcases t2 with s2 | s2
            · exact Or.inl (lt_trans s1 s2)
            · exact Or.inl (s2 ▸ s1)
          · rcases t2 with s2 | s2
            · exact Or.inl (s1 ▸ s2)
            · exact Or.inr (s1.trans s2)

/-- clean_up (case_tracker.py): fill missing strings (already `""` in this
representation) and sort ascending by (LOCATION_NAME, DATE, CASE_TYPE). -/
def cleanUp (df : List Row) : List Row := List.insertionSort keyLe df

/-- Row predicate: CASE_TYPE equals CaseTypes.CONFIRMED. -/
def isConfirmed (r : Row) : Bool := r.caseType == confirmedCT

/-- The groupby key of get_n_largest_locations:
[LOCATION_NAME, COUNTRY, STATE]. -/
def tripleKey (r : Row) : String × String × String := (r.location, r.country, r.state)

/-- The rows of a (LOCATION_NAME, COUNTRY, STATE) group, in table order. -/
def tripleGroup (df : List Row) (k : String × String × String) : List Row :=
  df.filter (fun r => tripleKey r == k)

/-- The rows of a LOCATION_NAME group, in table order
(the groupby of keep_only_above_cutoff). -/
def locGroup (df : List Row) (k : String) : List Row :=
  df.filter (fun r => r.location == k)

/-- The distinct LOCATION_NAME values of a table. -/
def locKeys (df : List Row) : List String := (df.map Row.location).dedup

/-- The body of the lambda of keep_only_above_cutoff:
`g.loc[g[CASE_TYPE] == CONFIRMED, CASE_COUNT].iloc[-1]`, as an Option
(`none` is the IndexError raised when the group has no confirmed row). -/
def currentConfirmed (rows : List Row) : Option ℚ :=
  ((rows.filter isConfirmed).getLast?).map Row.caseCount

/-- The value series built by get_n_largest_locations before `.nlargest`:
for every (LOCATION_NAME, COUNTRY, STATE) group of the confirmed-only rows,
`g[CASE_COUNT].iloc[-1]`.  Only the values are kept, since the caller
consumes nothing but their minimum. -/
def tripleCurrents (df : List Row) : List ℚ :=
  (((df.filter isConfirmed).map tripleKey).dedup).filterMap
    (fun k => ((tripleGroup (df.filter isConfirmed) k).getLast?).map Row.caseCount)

/-- Sort a value list descending: the order `Series.nlargest` uses. -/
def sortDesc (l : List ℚ) : List ℚ := List.insertionSort (fun a b : ℚ => a ≥ b) l

/-- The value of `get_n_largest_locations(df, n).min()` once the ranking
series exists: nlargest keeps the `n` largest values (all of them when fewer
exist); `.min()` of an empty selection (n = 0) is NaN, rendered as the inner
`none`. -/
def nthLargestMin (df : List Row) (n : ℕ) : Option ℚ :=
  ((sortDesc (tripleCurrents df)).take n).min?

/-- The whole cutoff computation of keep_only_n_largest_locations.  With
zero ranking groups — the table has no confirmed rows, in particular on the
empty table — the groupby-apply output is an empty DataFrame, not a Series,
and `DataFrame.nlargest(n)` raises TypeError (missing `columns`): that error
is the outer `none`.  Otherwise the value is `nlargest(n).min()`. -/
def caseCountCutoff (df : List Row) (n : ℕ) : Option (Option ℚ) :=
  if df.filter isConfirmed = [] then none
  else some (nthLargestMin df n)

/-- The comparison of the lambda of keep_only_above_cutoff for one location
group: current confirmed value at least the cutoff.  Comparisons against a
NaN cutoff (`none`) are false. -/
def aboveCutoff (df : List Row) (cutoff : Option ℚ) (k : String) : Bool :=
  match currentConfirmed (locGroup df k), cutoff with
  | some cur, some c => decide (c ≤ cur)
  | _, _ => false

/-- keep_only_above_cutoff: `df.groupby(LOCATION_NAME).filter(lambda g: ...)`.
The lambda reads `.iloc[-1]` of the confirmed-only rows of every group, so a
location without a confirmed row raises IndexError: that failure is the
`none` result. -/
def keepOnlyAboveCutoff (df : List Row) (cutoff : Option ℚ) : Option (List Row) :=
  if (locKeys df).all (fun k => (currentConfirmed (locGroup df k)).isSome) then
    some (df.filter (fun r => aboveCutoff df cutoff r.location))
  else none

/-- keep_only_n_largest_locations (case_tracker.py): the ranking step runs
first and its failure (TypeError on zero ranking groups) propagates;
otherwise its min feeds the re-filter step. -/
def keepOnlyNLargestLocations (df : List Row) (n : ℕ) : Option (List Row) :=
  (caseCountCutoff df n).bind (fun cutoff => keepOnlyAboveCutoff df cutoff)

/-- The row filter of get_countries_df: not a state row and not one of the
three synthetic aggregate locations. -/
def isCountryRow (r : Row) : Bool :=
  !r.isState && !(([worldLoc, worldMinusChinaLoc, chinaLoc]).contains r.location)

/-- get_countries_df (case_tracker.py). -/
def getCountriesDf (df : List Row) (n : ℕ) : Option (List Row) :=
  keepOnlyNLargestLocations (df.filter isCountryRow) n

/-- A value of the CASE_COUNT column once the per-capita division has run:
a pandas float, i.e. either missing (NA), NaN, an infinity, or finite. -/
inductive PCVal
  | na
  | nan
  | posInf
  | negInf
  | fin (q : ℚ)
  deriving DecidableEq

/-- Whether a `PCVal` is a finite number. -/
def PCVal.isFin : PCVal → Bool
  | .fin _ => true
  | _ => false

/-- One row of the reader table (read_in_data.py) before the per-capita
expansion: absolute integer counts and a nullable population. -/
structure CRow where
  country : String
  state : String
  date : ℚ
  caseType : String
  caseCount : ℤ
  population : Option ℤ
  deriving DecidableEq

/-- One row after append_percapita_stage_count: the count may now be any
pandas float and the STAGE / COUNT_TYPE columns exist. -/
structure ERow where
  country : String
  state : String
  date : ℚ
  caseType : String
  caseCount : PCVal
  population : Option ℤ
  stage : Option String
  countType : String
  deriving DecidableEq

/-- The CASE_TYPE → DiseaseStage.name map of append_percapita_stage_count;
unmapped case types become NaN (`none`). -/
def stageName (ct : String) : Option String :=
  if ct = confirmedCT then some "CONFIRMED"
  else if ct = deathsCT then some "DEATH"
  else none

/-- The CASE_TYPE → per-capita CASE_TYPE map of append_percapita_stage_count;
`.fillna` makes it the identity on unmapped case types. -/
def perCapitaCaseType (ct : String) : String :=
  if ct = confirmedCT then confirmedPerCapitaCT
  else if ct = deathsCT then deathsPerCapitaCT
  else ct

/-- Division `case_count / population` on an integer count and a nullable integer
population, with the pandas semantics of the era: NA propagates, and
division by zero follows IEEE (0/0 is NaN, otherwise a signed infinity). -/
def divPop (c : ℤ) (pop : Option ℤ) : PCVal :=
  match pop with
  | none => .na
  | some p =>
    if p = 0 then (if c = 0 then .nan else if 0 < c then .posInf else .negInf)
    else .fin ((c : ℚ) / (p : ℚ))

/-- The total_cases_df half of append_percapita_stage_count: the original row
with STAGE and COUNT_TYPE columns added. -/
def totalRow (r : CRow) : ERow :=
  { country := r.country, state := r.state, date := r.date,
    caseType := r.caseType, caseCount := .fin (r.caseCount : ℚ),
    population := r.population, stage := stageName r.caseType,
    countType := "TOTAL_CASES" }

/-- The per_capita_df half of append_percapita_stage_count: CASE_TYPE
remapped and CASE_COUNT divided by the population. -/
def perCapitaRow (r : CRow) : ERow :=
  { country := r.country, state := r.state, date := r.date,
    caseType := perCapitaCaseType r.caseType,
    caseCount := divPop r.caseCount r.population,
    population := r.population, stage := stageName r.caseType,
    countType := "PER_CAPITA" }

/-- append_percapita_stage_count (read_in_data.py): the original rows with
the stage columns added, followed by the per-capita duplicates. -/
def appendPercapitaStageCount (df : List CRow) : List ERow :=
  df.map totalRow ++ df.map perCapitaRow

/-- One row of the table fed to the outbreak annotator: the expanded row
shape plus the IS_STATE and LOCATION_NAME columns that read() assigns
before calling it. -/
structure LRow where
  country : String
  state : String
  location : String
  isState : Bool
  date : ℚ
  caseType : String
  caseCount : PCVal
  population : Option ℤ
  stage : Option String
  countType : String
  deriving DecidableEq

/-- An annotated row: the input row with the two appended columns
OUTBREAK_START_DATE_COL and DAYS_SINCE_OUTBREAK. -/
structure ARow where
  base : LRow
  outbreakStart : Option ℚ
  daysSince : Option ℚ
  deriving DecidableEq

/-- The threshold table CaseInfo.get_info_items_for(THRESHOLD, CASE_TYPE)
merged onto CASE_TYPE (constants.py CaseInfo._THRESHOLDS); the left merge
leaves unmapped case types with a NaN threshold (`none`). -/
def thresholdFor (ct : String) : Option ℚ :=
  if ct = confirmedCT then some 100
  else if ct = confirmedPerCapitaCT then some (1 / 100000)
  else if ct = deathsCT then some 25
  else if ct = deathsPerCapitaCT then some (1 / 1000000)
  else none

/-- The row filter `df[CASE_COUNT] >= df[THRESHOLD]`: comparisons against
NaN / NA are false, +inf exceeds every threshold. -/
def crossesThreshold (r : LRow) : Bool :=
  match thresholdFor r.caseType, r.caseCount with
  | some t, .fin q => decide (t ≤ q)
  | some _, .posInf => true
  | _, _ => false

/-- The groupby key of the outbreak-start computation:
location_id_cols + CASE_TYPE = (COUNTRY, STATE, LOCATION_NAME, CASE_TYPE). -/
def outbreakKey (r : LRow) : String × String × String × String :=
  (r.country, r.state, r.location, r.caseType)

/-- The outbreak start date of one group: the minimum DATE over the rows of
the group that meet their threshold (`none` when there are none, which the
left merge turns into NaT). -/
def outbreakStartFor (df : List LRow) (k : String × String × String × String) :
    Option ℚ :=
  ((df.filter (fun r => crossesThreshold r && (outbreakKey r == k))).map LRow.date).min?

/-- SaveFormats.get_df_with_outbreak_start_date_and_days_since
(read_in_data.py): merge the per-group minimum crossing date back onto every
row and derive DAYS_SINCE_OUTBREAK as a fractional-day difference. -/
def getDfWithOutbreakStartDateAndDaysSince (df : List LRow) : List ARow :=
  df.map (fun r =>
    let s := outbreakStartFor df (outbreakKey r)
    { base := r, outbreakStart := s, daysSince := s.map (fun d => r.date - d) })

instance : Std.Antisymm (fun a b : ℚ => a ≤ b) := ⟨fun h1 h2 => le_antisymm h1 h2⟩

instance : IsTotal ℚ (fun a b : ℚ => a ≥ b) := ⟨fun a b => le_total b a⟩

instance : IsTrans ℚ (fun a b : ℚ => a ≥ b) := ⟨fun _ _ _ h1 h2 => le_trans h2 h1⟩

/-- What the merged-back outbreak start date means for one annotated row: it
is some date exactly when that date is the earliest date at which the rows
group (same COUNTRY, STATE, LOCATION_NAME, CASE_TYPE) meets its threshold,
and a group that never meets it gets null in both appended columns. -/
def outbreakStartSpec (df : List LRow) (r : LRow) (a : ARow) : Prop :=
  (∀ d, a.outbreakStart = some d ↔
      ((∃ x ∈ df, outbreakKey x = outbreakKey r ∧ crossesThreshold x = true ∧ x.date = d)
        ∧ ∀ x ∈ df, outbreakKey x = outbreakKey r → crossesThreshold x = true → d ≤ x.date))
    ∧ ((∀ x ∈ df, outbreakKey x = outbreakKey r → crossesThreshold x = false)
        → a.outbreakStart = none ∧ a.daysSince = none)

/-- What a successful keep_only_n_largest_locations output consists of:
exactly the rows of locations whose current confirmed value reaches the
cutoff (ties included, never truncated by rank), where the current value of
a location group of a sorted table is the case count of its confirmed row
of maximal date, and the cutoff is the minimum of the N largest
ranking-group current values. -/
def cutoffFilterSpec (df : List Row) (n : ℕ) (out : List Row) : Prop :=
  caseCountCutoff df n = some (nthLargestMin df n)
    ∧ (∀ r, r ∈ out ↔ r ∈ df ∧ ∃ cur c,
          currentConfirmed (locGroup df r.location) = some cur
          ∧ nthLargestMin df n = some c ∧ c ≤ cur)
    ∧ (∀ k cur, currentConfirmed (locGroup df k) = some cur →
        ∃ rh ∈ df, rh.location = k ∧ isConfirmed rh = true ∧ rh.caseCount = cur
          ∧ ∀ r2 ∈ df, r2.location = k → isConfirmed r2 = true →
              r2.date ≤ rh.date)

/-! Concrete tables used by the witness and counterexample theorems. -/

/-- Location A, current confirmed value 100. -/
def c1rA : Row := ⟨"A", "", "A", false, 1, "Cases", 100⟩

/-- Location B, current confirmed value 100: ties with A. -/
def c1rB : Row := ⟨"B", "", "B", false, 1, "Cases", 100⟩

/-- Location C, current confirmed value 90. -/
def c1rC : Row := ⟨"C", "", "C", false, 1, "Cases", 90⟩

/-- A cleaned, sorted table whose three locations have current confirmed
values 100, 100, 90. -/
def exC1 : List Row := [c1rA, c1rB, c1rC]

/-- Location A with the later date. -/
def c6rA : Row := ⟨"A", "", "A", false, 2, "Cases", 5⟩

/-- Location B with the earlier date. -/
def c6rB : Row := ⟨"B", "", "B", false, 1, "Cases", 7⟩

/-- A two-location table in which the alphabetically first location has the
later date. -/
def exC6 : List Row := [c6rB, c6rA]

/-- A two-location table for the large-N filter. -/
def exC7 : List Row :=
  [⟨"A", "", "A", false, 1, "Cases", 10⟩, ⟨"B", "", "B", false, 1, "Cases", 7⟩]

/-- A three-location table (one location also carries a deaths row) with
current confirmed values 100, 90, 80. -/
def exC8 : List Row :=
  [⟨"A", "", "A", false, 1, "Cases", 100⟩, ⟨"A", "", "A", false, 1, "Deaths", 3⟩,
    ⟨"B", "", "B", false, 1, "Cases", 90⟩, ⟨"C", "", "C", false, 1, "Cases", 80⟩]

/-- The top-2 output of `exC8`: the deaths row of a kept location survives. -/
def outC8 : List Row :=
  [⟨"A", "", "A", false, 1, "Cases", 100⟩, ⟨"A", "", "A", false, 1, "Deaths", 3⟩,
    ⟨"B", "", "B", false, 1, "Cases", 90⟩]

/-- First row of the confirmed group of location A: below threshold. -/
def c2r1 : LRow :=
  ⟨"A", "", "A", false, 1, "Cases", .fin 50, none, some "CONFIRMED", "TOTAL_CASES"⟩

/-- Second row of the confirmed group of location A: first crossing. -/
def c2r2 : LRow :=
  ⟨"A", "", "A", false, 2, "Cases", .fin 150, none, some "CONFIRMED", "TOTAL_CASES"⟩

/-- Third row of the confirmed group of location A: later crossing. -/
def c2r3 : LRow :=
  ⟨"A", "", "A", false, 3, "Cases", .fin 200, none, some "CONFIRMED", "TOTAL_CASES"⟩

/-- A deaths group of location B that never reaches its threshold of 25. -/
def c2r4 : LRow :=
  ⟨"B", "", "B", false, 1, "Deaths", .fin 1, none, some "DEATH", "TOTAL_CASES"⟩

/-- Annotator input with one crossing group and one never-crossing group. -/
def exC2 : List LRow := [c2r1, c2r2, c2r3, c2r4]

/-- A row whose case type is outside the four threshold-mapped ones. -/
def c10r : LRow :=
  ⟨"A", "", "A", false, 1, "Tested", .fin 999, none, none, "TOTAL_CASES"⟩

/-- Annotator input holding only a legacy Tested row. -/
def exC10 : List LRow := [c10r]

/-- A reader row with a missing population. -/
def c3r : CRow := ⟨"X", "", 1, "Cases", 7, none⟩

/-- A reader row with a zero population and a positive count. -/
def cxC3 : CRow := ⟨"X", "", 1, "Cases", 5, some 0⟩

/-- A reader row with an ordinary population. -/
def c4r : CRow := ⟨"X", "", 1, "Cases", 6, some 2⟩

/-- A table whose single location has a deaths row but no confirmed row. -/
def c9bad : List Row := [⟨"A", "", "A", false, 1, "Deaths", 5⟩]

/-- A table where location A has a confirmed row but location B has only a
deaths row: the re-filter lambda fails on B. -/
def c7bad : List Row :=
  [⟨"A", "", "A", false, 1, "Cases", 10⟩, ⟨"B", "", "B", false, 1, "Deaths", 5⟩]

/-- Location name X under three different countries plus a location Y: the
three X ranking groups have currents 100, 50 and 1, the X name group
current is 1 (its last confirmed row), and Y has current 60. -/
def exCol2 : List Row :=
  [⟨"P", "", "X", false, 1, "Cases", 100⟩, ⟨"Q", "", "X", false, 1, "Cases", 50⟩,
    ⟨"R", "", "X", false, 2, "Cases", 1⟩, ⟨"S", "", "Y", false, 1, "Cases", 60⟩]

/-- The surviving row of `exCol2` under the top-3 filter. -/
def colY1 : Row := ⟨"S", "", "Y", false, 1, "Cases", 60⟩

/-- A single location name X split over two countries whose name-group
current (1) lies below its own top ranking current (100). -/
def exColl : List Row :=
  [⟨"P", "", "X", false, 1, "Cases", 100⟩, ⟨"Q", "", "X", false, 2, "Cases", 1⟩]

/-- Single-row expander input with a missing population. -/
def exC3 : List CRow := [c3r]

/-- Single-row expander input with an ordinary population. -/
def exC4 : List CRow := [c4r]

/-! General list lemmas used by the pipeline proofs. -/

theorem minQ_eq_some_iff {l : List ℚ} {a : ℚ} :
    l.min? = some a ↔ a ∈ l ∧ ∀ b ∈ l, a ≤ b :=
  List.min?_eq_some_iff le_refl min_choice (fun _ _ _ => le_min_iff)

theorem mem_of_getLast?_eq {α : Type} {l : List α} {a : α}
    (h : l.getLast? = some a) : a ∈ l := by
  cases l with
  | nil => simp at h
  | cons x t =>
    have hne : x :: t ≠ [] := by simp
    rw [List.getLast?_eq_getLast _ hne] at h
    injection h with h
    rw [← h]
    exact List.getLast_mem hne

theorem getLast?_filter {α : Type} {p : α → Bool} :
    ∀ {l : List α} {a : α}, l.getLast? = some a → p a = true →
      (l.filter p).getLast? = some a := by
  intro l
  induction l with
  | nil => intro a h _; simp at h
  | cons x t ih =>
    intro a h hp
    cases t with
    | nil =>
      simp at h
      subst h
      rw [List.filter_cons_of_pos hp]
      simp
    | cons y u =>
      rw [List.getLast?_cons_cons] at h
      have hres := ih h hp
      by_cases hx : p x = true
      · rw [List.filter_cons_of_pos hx]
        cases hfil : (y :: u).filter p with
        | nil => rw [hfil] at hres; simp at hres
        | cons z w =>
          rw [hfil] at hres
          rw [List.getLast?_cons_cons]
          exact hres
      · rw [List.filter_cons_of_neg hx]
        exact hres

theorem getLast?_rel_of_pairwise {α : Type} {R : α → α → Prop} :
    ∀ {l : List α} {a : α}, l.Pairwise R → l.getLast? = some a →
      ∀ b ∈ l, b = a ∨ R b a := by
  intro l
  induction l with
  | nil => intro a _ h; simp at h
  | cons x t ih =>
    intro a hp h b hb
    rcases List.pairwise_cons.mp hp with ⟨hx, ht⟩
    cases t with
    | nil =>
      simp at h
      subst h
      simp at hb
      exact Or.inl hb
    | cons y u =>
      rw [List.getLast?_cons_cons] at h
      rcases List.mem_cons.mp hb with rfl | hb2
      · exact Or.inr (hx a (mem_of_getLast?_eq h))
      · exact ih ht h b hb2

theorem head?_rel_of_pairwise {α : Type} {R : α → α → Prop} {l : List α} {a : α}
    (hp : l.Pairwise R) (h : l.head? = some a) : ∀ b ∈ l, b = a ∨ R a b := by
  cases l with
  | nil => simp at h
  | cons x t =>
    simp at h
    subst h
    intro b hb
    rcases List.mem_cons.mp hb with rfl | hb2
    · exact Or.inl rfl
    · exact Or.inr ((List.pairwise_cons.mp hp).1 b hb2)

theorem dedup_filter {α : Type} [DecidableEq α] (p : α → Bool) :
    ∀ l : List α, (l.filter p).dedup = l.dedup.filter p := by
  intro l
  induction l with
  | nil => simp
  | cons x t ih =>
    by_cases hx : p x = true
    · rw [List.filter_cons_of_pos hx]
      by_cases hm : x ∈ t
      · have hmf : x ∈ t.filter p := List.mem_filter.mpr ⟨hm, hx⟩
        rw [List.dedup_cons_of_mem hmf, List.dedup_cons_of_mem hm, ih]
      · have hmf : x ∉ t.filter p := fun hc => hm (List.mem_filter.mp hc).1
        rw [List.dedup_cons_of_not_mem hmf, List.dedup_cons_of_not_mem hm, ih,
          List.filter_cons_of_pos hx]
    · rw [List.filter_cons_of_neg hx]
      by_cases hm : x ∈ t
      · rw [List.dedup_cons_of_mem hm, ih]
      · rw [List.dedup_cons_of_not_mem hm, ih, List.filter_cons_of_neg hx]

theorem filter_swap {α : Type} (p q : α → Bool) (l : List α) :
    (l.filter p).filter q = (l.filter q).filter p := by
  simp only [List.filter_filter]
  exact List.filter_congr (fun x _ => Bool.and_comm _ _)

theorem sorted_take_all_gt {x : ℚ} :
    ∀ {l : List ℚ} {n : ℕ}, List.Sorted (fun a b : ℚ => a ≥ b) l →
      n ≤ l.countP (fun y => decide (x < y)) → ∀ y ∈ l.take n, x < y := by
  intro l
  induction l with
  | nil => intro n _ _ y hy; simp at hy
  | cons a t ih =>
    intro n hs hc y hy
    cases n with
    | zero => simp at hy
    | succ m =>
      have hx : x < a := by
        by_contra hxa
        push_neg at hxa
        have hall : ∀ e ∈ a :: t, ¬ (fun y => decide (x < y)) e = true := by
          intro e he
          simp only [decide_eq_true_eq, not_lt]
          rcases List.mem_cons.mp he with rfl | he2
          · exact hxa
          · exact le_trans (List.rel_of_sorted_cons hs e he2) hxa
        have h0 : (a :: t).countP (fun y => decide (x < y)) = 0 :=
          List.countP_eq_zero.mpr hall
        rw [h0] at hc
        exact absurd hc (by simp)
      rw [List.take_succ_cons] at hy
      rcases List.mem_cons.mp hy with rfl | hy2
      · exact hx
      · have hcons : (a :: t).countP (fun y => decide (x < y))
            = t.countP (fun y => decide (x < y)) + 1 :=
          List.countP_cons_of_pos _ _ (by simpa using hx)
        have hcount : m ≤ t.countP (fun y => decide (x < y)) := by omega
        exact ih hs.of_cons hcount y hy2

theorem cutoff_mono {S T : List ℚ} {n : ℕ} {x c cT : ℚ}
    (hsub : T.Sublist S) (hx : x ∈ T)
    (hS : ((sortDesc S).take n).min? = some c) (hcx : c ≤ x)
    (hT : ((sortDesc T).take n).min? = some cT) : cT ≤ x := by
  by_contra hlt
  push_neg at hlt
  rcases minQ_eq_some_iff.mp hT with ⟨hcTmem, hcTle⟩
  have htop : ∀ y ∈ (sortDesc T).take n, x < y := fun y hy =>
    lt_of_lt_of_le hlt (hcTle y hy)
  have hlenT : (sortDesc T).length = T.length :=
    (List.perm_insertionSort _ T).length_eq
  by_cases hlen : T.length ≤ n
  · have htake : (sortDesc T).take n = sortDesc T :=
      List.take_of_length_le (by rw [hlenT]; exact hlen)
    have hxs : x ∈ (sortDesc T).take n := by
      rw [htake]
      exact (List.perm_insertionSort _ T).mem_iff.mpr hx
    exact lt_irrefl x (htop x hxs)
  · push_neg at hlen
    have hcount : n ≤ (sortDesc T).countP (fun y => decide (x < y)) := by
      have h1 : ((sortDesc T).take n).countP (fun y => decide (x < y))
          = ((sortDesc T).take n).length :=
        List.countP_eq_length.mpr (by intro y hy; simpa using htop y hy)
      have h2 : ((sortDesc T).take n).length = n := by
        rw [List.length_take]
        exact Nat.min_eq_left (by rw [hlenT]; exact Nat.le_of_lt hlen)
      have h3 := List.Sublist.countP_le (fun y => decide (x < y))
        (List.take_sublist n (sortDesc T))
      omega
    have hcountS : n ≤ (sortDesc S).countP (fun y => decide (x < y)) := by
      have hTc : (sortDesc T).countP (fun y => decide (x < y))
          = T.countP (fun y => decide (x < y)) :=
        (List.perm_insertionSort _ T).countP_eq _
      have hSc : (sortDesc S).countP (fun y => decide (x < y))
          = S.countP (fun y => decide (x < y)) :=
        (List.perm_insertionSort _ S).countP_eq _
      have hsubc := hsub.countP_le (fun y => decide (x < y))
      omega
    have hgt : ∀ y ∈ (sortDesc S).take n, x < y :=
      sorted_take_all_gt (List.sorted_insertionSort _ S) hcountS
    exact absurd hcx (not_le.mpr (hgt c (minQ_eq_some_iff.mp hS).1))

/-! Lemmas about the top-N machinery of case_tracker.py. -/

theorem locGroup_all_eq {df : List Row} {k : String} :
    ∀ r ∈ locGroup df k, r.location = k := by
  intro r hr
  have h := (List.mem_filter.mp hr).2
  simpa using h

theorem currentConfirmed_eq_some {rows : List Row} {cur : ℚ}
    (h : currentConfirmed rows = some cur) :
    ∃ rh, (rows.filter isConfirmed).getLast? = some rh ∧ rh.caseCount = cur := by
  unfold currentConfirmed at h
  cases hl : (rows.filter isConfirmed).getLast? with
  | none => rw [hl] at h; simp at h
  | some rh =>
    rw [hl] at h
    simp only [Option.map_some'] at h
    exact ⟨rh, rfl, by injection h⟩

theorem aboveCutoff_eq_true_iff {df : List Row} {cutoff : Option ℚ} {k : String} :
    aboveCutoff df cutoff k = true ↔
      ∃ cur c, currentConfirmed (locGroup df k) = some cur ∧ cutoff = some c ∧ c ≤ cur := by
  unfold aboveCutoff
  cases hcc : currentConfirmed (locGroup df k) with
  | none => cases cutoff <;> simp
  | some cur => cases cutoff with
    | none => simp
    | some c => simp

theorem keep_eq_filter {df : List Row} {n : ℕ}
    (hne : df.filter isConfirmed ≠ [])
    (h : ∀ k ∈ locKeys df, (currentConfirmed (locGroup df k)).isSome = true) :
    keepOnlyNLargestLocations df n =
      some (df.filter (fun r => aboveCutoff df (nthLargestMin df n) r.location)) := by
  unfold keepOnlyNLargestLocations caseCountCutoff
  rw [if_neg hne, Option.some_bind]
  unfold keepOnlyAboveCutoff
  rw [if_pos (List.all_eq_true.mpr h)]

theorem keep_elim {df : List Row} {n : ℕ} {out : List Row}
    (h : keepOnlyNLargestLocations df n = some out) :
    df.filter isConfirmed ≠ []
      ∧ (∀ k ∈ locKeys df, (currentConfirmed (locGroup df k)).isSome = true)
      ∧ out = df.filter (fun r => aboveCutoff df (nthLargestMin df n) r.location) := by
  unfold keepOnlyNLargestLocations caseCountCutoff at h
  by_cases hne : df.filter isConfirmed = []
  · rw [if_pos hne, Option.none_bind] at h
    exact absurd h (by simp)
  · rw [if_neg hne, Option.some_bind] at h
    unfold keepOnlyAboveCutoff at h
    by_cases hc :
        (locKeys df).all (fun k => (currentConfirmed (locGroup df k)).isSome) = true
    · rw [if_pos hc] at h
      injection h with h
      exact ⟨hne, List.all_eq_true.mp hc, h.symm⟩
    · rw [if_neg hc] at h
      exact absurd h (by simp)

theorem confirmed_ne_nil_of_isSome {df : List Row} {k : String}
    (h : (currentConfirmed (locGroup df k)).isSome = true) :
    df.filter isConfirmed ≠ [] := by
  rcases Option.isSome_iff_exists.mp h with ⟨cur, hcur⟩
  rcases currentConfirmed_eq_some hcur with ⟨rh, hlast, _⟩
  have hrm : rh ∈ (locGroup df k).filter isConfirmed :=
    mem_of_getLast?_eq hlast
  have hswap : (locGroup df k).filter isConfirmed
      = (df.filter isConfirmed).filter (fun r => r.location == k) := by
    unfold locGroup
    exact filter_swap _ _ _
  intro h0
  rw [hswap, h0] at hrm
  simp at hrm

theorem locGroup_locFilter {df : List Row} {f : String → Bool} {k : String}
    (hf : f k = true) :
    locGroup (df.filter (fun r => f r.location)) k = locGroup df k := by
  unfold locGroup
  rw [filter_swap]
  apply List.filter_eq_self.mpr
  intro r hr
  have hrk : r.location = k := by simpa using (List.mem_filter.mp hr).2
  rw [hrk]
  exact hf

theorem currentConfirmed_mem_tripleCurrents {df : List Row} {k : String} {cur : ℚ}
    (hk : currentConfirmed (locGroup df k) = some cur) : cur ∈ tripleCurrents df := by
  rcases currentConfirmed_eq_some hk with ⟨rh, hlast, hcc⟩
  have hswap : (locGroup df k).filter isConfirmed
      = (df.filter isConfirmed).filter (fun r => r.location == k) := by
    unfold locGroup
    exact filter_swap _ _ _
  have hrm : rh ∈ (locGroup df k).filter isConfirmed := mem_of_getLast?_eq hlast
  have hloc : rh.location = k := locGroup_all_eq rh (List.mem_filter.mp hrm).1
  have hrdf : rh ∈ df.filter isConfirmed := by
    rw [hswap] at hrm
    exact (List.mem_filter.mp hrm).1
  have hgroups : tripleGroup (df.filter isConfirmed) (tripleKey rh)
      = ((locGroup df k).filter isConfirmed).filter
          (fun r => tripleKey r == tripleKey rh) := by
    rw [hswap, List.filter_filter]
    unfold tripleGroup
    apply List.filter_congr
    intro x _
    cases hb : (tripleKey x == tripleKey rh) with
    | false => simp
    | true =>
      have heq : tripleKey x = tripleKey rh := by simpa using hb
      have hxl : x.location = k := by
        have h1 : x.location = (tripleKey x).1 := rfl
        rw [h1, heq]
        exact hloc
      simp [hxl]
  have hlast2 : (tripleGroup (df.filter isConfirmed) (tripleKey rh)).getLast?
      = some rh := by
    rw [hgroups]
    exact getLast?_filter hlast (by simp)
  have hkey : tripleKey rh ∈ ((df.filter isConfirmed).map tripleKey).dedup :=
    List.mem_dedup.mpr (List.mem_map.mpr ⟨rh, hrdf, rfl⟩)
  unfold tripleCurrents
  exact List.mem_filterMap.mpr
    ⟨tripleKey rh, hkey, by rw [hlast2, Option.map_some', hcc]⟩

theorem tripleCurrents_locFilter (df : List Row) (f : String → Bool) :
    tripleCurrents (df.filter (fun r => f r.location)) =
      ((((df.filter isConfirmed).map tripleKey).dedup.filter (fun k => f k.1)).filterMap
        (fun k => ((tripleGroup (df.filter isConfirmed) k).getLast?).map Row.caseCount)) := by
  unfold tripleCurrents
  have hconf : (df.filter (fun r => f r.location)).filter isConfirmed
      = (df.filter isConfirmed).filter (fun r => f r.location) := filter_swap _ _ _
  rw [hconf]
  have hmap : ((df.filter isConfirmed).filter (fun r => f r.location)).map tripleKey
      = ((df.filter isConfirmed).map tripleKey).filter (fun k => f k.1) := by
    have h1 : (df.filter isConfirmed).filter (fun r => f r.location)
        = (df.filter isConfirmed).filter
            ((fun k : String × String × String => f k.1) ∘ tripleKey) :=
      List.filter_congr (fun x _ => rfl)
    rw [h1, ← List.filter_map]
  rw [hmap, dedup_filter]
  apply List.filterMap_congr
  intro k hk
  have hfk : f k.1 = true := (List.mem_filter.mp hk).2
  have hgrp : tripleGroup ((df.filter isConfirmed).filter (fun r => f r.location)) k
      = tripleGroup (df.filter isConfirmed) k := by
    unfold tripleGroup
    rw [filter_swap]
    apply List.filter_eq_self.mpr
    intro r hr
    have hrk : tripleKey r = k := by simpa using (List.mem_filter.mp hr).2
    have : r.location = k.1 := by rw [← hrk]; rfl
    rw [this]
    exact hfk
  rw [hgrp]

theorem tripleCurrents_locFilter_sublist (df : List Row) (f : String → Bool) :
    (tripleCurrents (df.filter (fun r => f r.location))).Sublist (tripleCurrents df) := by
  rw [tripleCurrents_locFilter]
  unfold tripleCurrents
  exact List.Sublist.filterMap _ (List.filter_sublist _)

theorem tripleCurrents_length_le {df : List Row}
    (hLoc : ∀ r1 ∈ df, ∀ r2 ∈ df, r1.location = r2.location →
      r1.country = r2.country ∧ r1.state = r2.state) :
    (tripleCurrents df).length ≤ (locKeys df).length := by
  have h1 : (tripleCurrents df).length
      ≤ (((df.filter isConfirmed).map tripleKey).dedup).length :=
    List.length_filterMap_le _ _
  set keys := ((df.filter isConfirmed).map tripleKey).dedup with hkeys
  have hmemdf : ∀ x ∈ keys, ∃ rx ∈ df, tripleKey rx = x := by
    intro x hx
    rcases List.mem_map.mp (List.mem_dedup.mp hx) with ⟨rx, hrx, hxe⟩
    exact ⟨rx, (List.mem_filter.mp hrx).1, hxe⟩
  have hnd : (keys.map (fun k => k.1)).Nodup := by
    apply List.Nodup.map_on ?_ (List.nodup_dedup _)
    intro x hxk y hyk hxy
    rcases hmemdf x hxk with ⟨rx, hrx, hxe⟩
    rcases hmemdf y hyk with ⟨ry, hry, hye⟩
    have hl : rx.location = ry.location := by
      have e1 : rx.location = x.1 := by rw [← hxe]; rfl
      have e2 : ry.location = y.1 := by rw [← hye]; rfl
      rw [e1, e2, hxy]
    rcases hLoc rx hrx ry hry hl with ⟨hc, hs⟩
    rw [← hxe, ← hye]
    unfold tripleKey
    rw [hl, hc, hs]
  have hsubset : (keys.map (fun k => k.1)).toFinset ⊆ (locKeys df).toFinset := by
    intro a ha
    rcases List.mem_map.mp (List.mem_toFinset.mp ha) with ⟨x, hx, hxa⟩
    rcases hmemdf x hx with ⟨rx, hrx, hxe⟩
    apply List.mem_toFinset.mpr
    apply List.mem_dedup.mpr
    apply List.mem_map.mpr
    refine ⟨rx, hrx, ?_⟩
    rw [← hxe] at hxa
    exact hxa
  have h2 : keys.length ≤ (locKeys df).length := by
    have e1 : (keys.map (fun k => k.1)).toFinset.card = keys.length := by
      rw [List.toFinset_card_of_nodup hnd, List.length_map]
    have e2 : (locKeys df).toFinset.card = (locKeys df).length :=
      List.toFinset_card_of_nodup (List.nodup_dedup _)
    have h3 := Finset.card_le_card hsubset
    omega
  omega

/-! Claim theorems for the top-N filter. -/

/-- C9: keep_only_n_largest_locations is total only under the precondition
that every LOCATION_NAME group of its input has at least one confirmed row:
success implies the precondition; a location with no confirmed rows makes
the whole call fail (the `none` result, an error in the source) rather than
being treated as a current value of zero; and the `.iloc[-1]` lookup of a
group is well-defined exactly when that group has a confirmed row.  The
precondition is necessary but not sufficient: on a table with no confirmed
rows at all (the empty table included) the ranking step itself raises
TypeError before any group lookup runs. -/
theorem c9_keep_total_only_if_confirmed (df : List Row) (n : ℕ) :
    ((keepOnlyNLargestLocations df n).isSome = true →
      ∀ k ∈ locKeys df, (currentConfirmed (locGroup df k)).isSome = true)
    ∧ (∀ k ∈ locKeys df, (currentConfirmed (locGroup df k)).isSome = false →
        keepOnlyNLargestLocations df n = none)
    ∧ (∀ k : String, (currentConfirmed (locGroup df k)).isSome = true ↔
        (locGroup df k).filter isConfirmed ≠ []) := by
  have hnec : (keepOnlyNLargestLocations df n).isSome = true →
      ∀ k ∈ locKeys df, (currentConfirmed (locGroup df k)).isSome = true := by
    intro h
    rcases Option.isSome_iff_exists.mp h with ⟨out, hout⟩
    exact (keep_elim hout).2.1
  refine ⟨hnec, ?_, ?_⟩
  · intro k hk hfalse
    cases hcase : keepOnlyNLargestLocations df n with
    | none => rfl
    | some out =>
      have hsome := hnec (by rw [hcase]; rfl) k hk
      rw [hfalse] at hsome
      exact absurd hsome (by simp)
  · intro k
    unfold currentConfirmed
    constructor
    · intro h h0
      rw [h0] at h
      simp at h
    · intro h
      cases hcase : (locGroup df k).filter isConfirmed with
      | nil => exact absurd hcase h
      | cons a t =>
        rw [List.getLast?_eq_getLast (a :: t) (by simp)]
        rfl

/-- Witness for C9: on a table whose only location has no confirmed row the
filter fails. -/
theorem c9_witness : keepOnlyNLargestLocations c9bad 1 = none :=
  (c9_keep_total_only_if_confirmed c9bad 1).2.1 "A" (by decide) (by decide)

/-- C7 counterexample, refuting each universally quantified part of the
claim on the code.  The empty table does not degrade gracefully: the
ranking step raises TypeError (nlargest on the empty groupby-apply
output).  A table whose location B has no confirmed row raises IndexError
in the re-filter even though N = 3 exceeds its 2 distinct locations.  And
with the location name X shared by three (country, state) identities, N = 3
exceeds the 2 distinct locations yet location X is dropped: the cutoff (50)
comes from the per-identity ranking groups while the name-group current of
X is 1. -/
theorem c7_counterexample :
    keepOnlyNLargestLocations ([] : List Row) 3 = none
      ∧ (keepOnlyNLargestLocations c7bad 3 = none ∧ (locKeys c7bad).length = 2)
      ∧ (keepOnlyNLargestLocations exCol2 3 = some [colY1]
        ∧ (locKeys exCol2).length = 2 ∧ "X" ∈ locKeys exCol2) :=
  ⟨by decide, ⟨by decide, by decide⟩, by decide, by decide, by decide⟩

/-- C7 (amended): on a nonempty table in which every location group has a
confirmed row (the totality precondition of C9) and LOCATION_NAME
determines the (COUNTRY, STATE) identity, N at least the number of distinct
locations makes the filter keep every row — the cutoff becomes the minimum
current confirmed value over all ranking groups — and nothing fails.  The
empty table is excluded because the source raises TypeError on it, and the
other two hypotheses exclude exactly the failing or location-dropping
inputs of the counterexample. -/
theorem c7_keep_all_when_n_large (df : List Row) (n : ℕ)
    (hne : df ≠ [])
    (hConf : ∀ k ∈ locKeys df, (currentConfirmed (locGroup df k)).isSome = true)
    (hLoc : ∀ r1 ∈ df, ∀ r2 ∈ df, r1.location = r2.location →
      r1.country = r2.country ∧ r1.state = r2.state)
    (hn : (locKeys df).length ≤ n) :
    keepOnlyNLargestLocations df n = some df := by
  have hcne : df.filter isConfirmed ≠ [] := by
    obtain ⟨r0, hr0⟩ := List.exists_mem_of_ne_nil df hne
    have hk0 : r0.location ∈ locKeys df :=
      List.mem_dedup.mpr (List.mem_map.mpr ⟨r0, hr0, rfl⟩)
    exact confirmed_ne_nil_of_isSome (hConf _ hk0)
  rw [keep_eq_filter hcne hConf]
  congr 1
  apply List.filter_eq_self.mpr
  intro r hr
  have hkmem : r.location ∈ locKeys df :=
    List.mem_dedup.mpr (List.mem_map.mpr ⟨r, hr, rfl⟩)
  rcases Option.isSome_iff_exists.mp (hConf _ hkmem) with ⟨cur, hcur⟩
  have hmem : cur ∈ tripleCurrents df := currentConfirmed_mem_tripleCurrents hcur
  have hlen : (tripleCurrents df).length ≤ n :=
    le_trans (tripleCurrents_length_le hLoc) hn
  have hslen : (sortDesc (tripleCurrents df)).length = (tripleCurrents df).length :=
    (List.perm_insertionSort _ _).length_eq
  have htake : (sortDesc (tripleCurrents df)).take n = sortDesc (tripleCurrents df) :=
    List.take_of_length_le (by rw [hslen]; exact hlen)
  have hmemS : cur ∈ sortDesc (tripleCurrents df) :=
    (List.perm_insertionSort _ _).mem_iff.mpr hmem
  have hneS : sortDesc (tripleCurrents df) ≠ [] := by
    intro h0
    rw [h0] at hmemS
    simp at hmemS
  obtain ⟨c, hc⟩ : ∃ c, nthLargestMin df n = some c := by
    unfold nthLargestMin
    rw [htake]
    cases hm : (sortDesc (tripleCurrents df)).min? with
    | none => exact absurd (List.min?_eq_none_iff.mp hm) hneS
    | some c => exact ⟨c, rfl⟩
  have hc2 : (sortDesc (tripleCurrents df)).min? = some c := by
    unfold nthLargestMin at hc
    rw [htake] at hc
    exact hc
  have hcs : c ≤ cur := (minQ_eq_some_iff.mp hc2).2 cur hmemS
  exact aboveCutoff_eq_true_iff.mpr ⟨cur, c, hcur, hc, hcs⟩

/-- Witness for the amended C7 at a concrete two-location table with
N = 5. -/
theorem c7_witness : keepOnlyNLargestLocations exC7 5 = some exC7 :=
  c7_keep_all_when_n_large exC7 5 (by decide) (by decide) (by decide) (by decide)

/-- C1 counterexample: with current confirmed values 100, 100, 90 and N = 2,
the cutoff is 100 and the two locations A and B both carry exactly that
cutoff value, yet the output consists of exactly the 2 = N locations A and
B.  Several locations sharing the exact cutoff value therefore does NOT
force more than N locations in the output. -/
theorem c1_counterexample :
    keepOnlyNLargestLocations exC1 2 = some [c1rA, c1rB]
      ∧ caseCountCutoff exC1 2 = some (some 100)
      ∧ currentConfirmed (locGroup exC1 "A") = some 100
      ∧ currentConfirmed (locGroup exC1 "B") = some 100
      ∧ locKeys [c1rA, c1rB] = ["A", "B"] := by
  refine ⟨by decide, by decide, by decide, by decide, by decide⟩

/-- C1 (amended): on a table sorted per the sortedness invariant, whatever
N, whenever keep_only_n_largest_locations succeeds its output consists of
exactly the rows of locations whose current confirmed value (the case count
of the location confirmed row of maximal date) is at least the cutoff, the
minimum of the N largest ranking-group current values; every location
reaching the cutoff is kept, so ties are never truncated by rank, and the
output has more than N locations exactly when more than N locations reach
the cutoff (not already whenever several locations share the cutoff value —
see the counterexample). -/
theorem c1_cutoff_filter (df : List Row) (n : ℕ) (out : List Row)
    (hs : List.Sorted keyLe df)
    (hout : keepOnlyNLargestLocations df n = some out) :
    cutoffFilterSpec df n out := by
  rcases keep_elim hout with ⟨hcne, hall, houtf⟩
  refine ⟨?_, ?_, ?_⟩
  · unfold caseCountCutoff
    rw [if_neg hcne]
  · intro r
    rw [houtf]
    constructor
    · intro hr
      rcases List.mem_filter.mp hr with ⟨hrdf, hab⟩
      exact ⟨hrdf, aboveCutoff_eq_true_iff.mp hab⟩
    · intro h
      exact List.mem_filter.mpr ⟨h.1, aboveCutoff_eq_true_iff.mpr h.2⟩
  · intro k cur hcur
    rcases currentConfirmed_eq_some hcur with ⟨rh, hlast, hcc⟩
    have hrm : rh ∈ (locGroup df k).filter isConfirmed := mem_of_getLast?_eq hlast
    rcases List.mem_filter.mp hrm with ⟨hrg, hrc⟩
    have hloc : rh.location = k := locGroup_all_eq rh hrg
    have hrdf : rh ∈ df := (List.mem_filter.mp hrg).1
    refine ⟨rh, hrdf, hloc, hrc, hcc, ?_⟩
    intro r2 h2df h2loc h2conf
    have h2g : r2 ∈ (locGroup df k).filter isConfirmed :=
      List.mem_filter.mpr ⟨List.mem_filter.mpr ⟨h2df, by simp [h2loc]⟩, h2conf⟩
    have hpw : ((locGroup df k).filter isConfirmed).Pairwise
        (fun a b : Row => a.date ≤ b.date) := by
      have hsub : ((locGroup df k).filter isConfirmed).Sublist df :=
        (List.filter_sublist _).trans (List.filter_sublist _)
      have hpk : ((locGroup df k).filter isConfirmed).Pairwise keyLe :=
        List.Pairwise.sublist hsub hs
      apply hpk.imp_of_mem
      intro a b ha hb hab
      have hak : a.location = k := locGroup_all_eq a (List.mem_filter.mp ha).1
      have hbk : b.location = k := locGroup_all_eq b (List.mem_filter.mp hb).1
      rcases hab with h | ⟨_, h⟩
      · rw [hak, hbk] at h
        exact absurd h (lt_irrefl _)
      · rcases h with h | ⟨h, _⟩
        · exact le_of_lt h
        · exact le_of_eq h
    rcases getLast?_rel_of_pairwise hpw hlast r2 h2g with rfl | hle
    · exact le_refl _
    · exact hle

/-- Witness for the amended C1 at the concrete tied table. -/
theorem c1_witness :
    List.Sorted keyLe exC1
      ∧ keepOnlyNLargestLocations exC1 2 = some [c1rA, c1rB]
      ∧ cutoffFilterSpec exC1 2 [c1rA, c1rB] :=
  ⟨by decide, by decide,
    c1_cutoff_filter exC1 2 [c1rA, c1rB] (by decide) (by decide)⟩

/-- Second application of the cutoff filter on a nonempty output: every
location group of the output keeps its rows, its current value, and its
cutoff, so the filter is a fixed point on its own output. -/
theorem keep_idem {df : List Row} {n : ℕ} {out : List Row}
    (h : keepOnlyNLargestLocations df n = some out) (hne : out ≠ []) :
    keepOnlyNLargestLocations out n = some out := by
  rcases keep_elim h with ⟨hcne, hall, hout⟩
  set P : String → Bool := fun k => aboveCutoff df (nthLargestMin df n) k with hP
  have hfilter : out = df.filter (fun r => P r.location) := hout
  have hgroup : ∀ k, P k = true → locGroup out k = locGroup df k := by
    intro k hk
    rw [hfilter]
    exact locGroup_locFilter hk
  have hall2 : ∀ k ∈ locKeys out, (currentConfirmed (locGroup out k)).isSome = true := by
    intro k hkm
    rcases List.mem_map.mp (List.mem_dedup.mp hkm) with ⟨r, hr, hrk⟩
    rw [hfilter] at hr
    have hPk : P k = true := by
      have hp := (List.mem_filter.mp hr).2
      rw [hrk] at hp
      exact hp
    have hdf : k ∈ locKeys df :=
      List.mem_dedup.mpr (List.mem_map.mpr ⟨r, (List.mem_filter.mp hr).1, hrk⟩)
    rw [hgroup k hPk]
    exact hall k hdf
  obtain ⟨r0, hr0⟩ := List.exists_mem_of_ne_nil out hne
  have hcne2 : out.filter isConfirmed ≠ [] := by
    have hk0 : r0.location ∈ locKeys out :=
      List.mem_dedup.mpr (List.mem_map.mpr ⟨r0, hr0, rfl⟩)
    exact confirmed_ne_nil_of_isSome (hall2 _ hk0)
  rw [keep_eq_filter hcne2 hall2]
  congr 1
  apply List.filter_eq_self.mpr
  intro r hr
  have hP1 : P r.location = true := by
    rw [hfilter] at hr
    exact (List.mem_filter.mp hr).2
  rcases aboveCutoff_eq_true_iff.mp hP1 with ⟨cur, c, hcur, hc, hcs⟩
  have hg : locGroup out r.location = locGroup df r.location := hgroup _ hP1
  have hcur2 : currentConfirmed (locGroup out r.location) = some cur := by
    rw [hg]
    exact hcur
  have hsub : (tripleCurrents out).Sublist (tripleCurrents df) := by
    rw [hfilter]
    exact tripleCurrents_locFilter_sublist df P
  have hmem : cur ∈ tripleCurrents out := currentConfirmed_mem_tripleCurrents hcur2
  have hn0 : n ≠ 0 := by
    intro h0
    unfold nthLargestMin at hc
    rw [h0, List.take_zero] at hc
    simp at hc
  obtain ⟨cT, hcT⟩ : ∃ cT, nthLargestMin out n = some cT := by
    unfold nthLargestMin
    cases hm : ((sortDesc (tripleCurrents out)).take n).min? with
    | some cT => exact ⟨cT, rfl⟩
    | none =>
      exfalso
      have hnil := List.min?_eq_none_iff.mp hm
      have hmem2 : cur ∈ sortDesc (tripleCurrents out) :=
        (List.perm_insertionSort _ _).mem_iff.mpr hmem
      cases hsd : sortDesc (tripleCurrents out) with
      | nil =>
        rw [hsd] at hmem2
        simp at hmem2
      | cons z zs =>
        cases n with
        | zero => exact hn0 rfl
        | succ m =>
          rw [hsd, List.take_succ_cons] at hnil
          simp at hnil
  have hcS : ((sortDesc (tripleCurrents df)).take n).min? = some c := hc
  have hcT2 : ((sortDesc (tripleCurrents out)).take n).min? = some cT := hcT
  have hmono : cT ≤ cur := cutoff_mono hsub hmem hcS hcs hcT2
  exact aboveCutoff_eq_true_iff.mpr ⟨cur, cT, hcur2, hcT, hmono⟩

/-- get_countries_df applied to its own nonempty output: the row predicate
is already satisfied by every output row, and the cutoff filter is a fixed
point there. -/
theorem countries_idem {df : List Row} {n : ℕ} {out : List Row}
    (h : getCountriesDf df n = some out) (hne : out ≠ []) :
    getCountriesDf out n = some out := by
  unfold getCountriesDf at h ⊢
  have hsub := (keep_elim h).2.2
  have hcr : ∀ r ∈ out, isCountryRow r = true := by
    intro r hr
    rw [hsub] at hr
    exact (List.mem_filter.mp ((List.filter_sublist _).subset hr)).2
  rw [List.filter_eq_self.mpr hcr]
  exact keep_idem h hne

/-- C8 counterexample: idempotence fails on the code when the first
application succeeds with an empty output.  With the location name X split
over two (country, state) identities, the top-1 cutoff is the identity
current 100 while the X name-group current is 1, so the filter returns the
empty table; reapplying it to that empty output raises TypeError (nlargest
on the empty groupby-apply result) instead of returning the empty table
again. -/
theorem c8_counterexample :
    keepOnlyNLargestLocations exColl 1 = some []
      ∧ keepOnlyNLargestLocations ([] : List Row) 1 = none :=
  ⟨by decide, by decide⟩

/-- C8 (amended): both view selectors are idempotent on every nonempty
successful output: a nonempty keep_only_n_largest_locations output is a
fixed point of the filter, and likewise a nonempty get_countries_df output.
An empty successful output is possible (location-name collisions, N = 0)
and reapplication then raises TypeError, as the counterexample shows. -/
theorem c8_idempotent (df : List Row) (n : ℕ) (out out2 : List Row) :
    (keepOnlyNLargestLocations df n = some out → out ≠ [] →
      keepOnlyNLargestLocations out n = some out)
    ∧ (getCountriesDf df n = some out2 → out2 ≠ [] →
      getCountriesDf out2 n = some out2) :=
  ⟨keep_idem, countries_idem⟩

/-- Witness for the amended C8 at a concrete three-location table with
N = 2. -/
theorem c8_witness :
    keepOnlyNLargestLocations outC8 2 = some outC8
      ∧ getCountriesDf outC8 2 = some outC8 := by
  constructor
  · exact (c8_idempotent exC8 2 outC8 outC8).1 (by decide) (by decide)
  · exact (c8_idempotent exC8 2 outC8 outC8).2 (by decide) (by decide)

/-- C6 (amended): clean_up sorts ascending by
(LOCATION_NAME, DATE, CASE_TYPE); consequently every filtered subset whose
rows all belong to a single location is date-ordered — its first row carries
the minimum date and its last row the maximum date, which is how callers
read a location current value from the last row of its case-type-filtered
group.  For subsets spanning several locations the table is ordered by
location first, so the unrestricted reading of the claim fails (see the
counterexample). -/
theorem c6_cleanup_sorted (df : List Row) (q : Row → Bool) (k : String)
    (hk : ∀ r ∈ (cleanUp df).filter q, r.location = k) :
    List.Sorted keyLe (cleanUp df)
      ∧ (∀ a, ((cleanUp df).filter q).head? = some a →
          ∀ b ∈ (cleanUp df).filter q, a.date ≤ b.date)
      ∧ (∀ a, ((cleanUp df).filter q).getLast? = some a →
          ∀ b ∈ (cleanUp df).filter q, b.date ≤ a.date) := by
  have hsorted : List.Sorted keyLe (cleanUp df) := List.sorted_insertionSort keyLe df
  have hpw : ((cleanUp df).filter q).Pairwise (fun a b : Row => a.date ≤ b.date) := by
    have hfs : ((cleanUp df).filter q).Pairwise keyLe :=
      List.Pairwise.sublist (List.filter_sublist _) hsorted
    apply hfs.imp_of_mem
    intro a b ha hb hab
    rcases hab with h | ⟨_, h⟩
    · rw [hk a ha, hk b hb] at h
      exact absurd h (lt_irrefl _)
    · rcases h with h | ⟨h, _⟩
      · exact le_of_lt h
      · exact le_of_eq h
  refine ⟨hsorted, ?_, ?_⟩
  · intro a ha b hb
    rcases head?_rel_of_pairwise hpw ha b hb with rfl | h
    · exact le_refl _
    · exact h
  · intro a ha b hb
    rcases getLast?_rel_of_pairwise hpw ha b hb with rfl | h
    · exact le_refl _
    · exact h

/-- C6 counterexample: on the cleaned two-location table the trivial
filtered subset (the whole table) starts with the row of the alphabetically
first location, whose date 2 is not the earliest: the row of location B
carries date 1. -/
theorem c6_counterexample :
    ((cleanUp exC6).filter (fun _ => true)).head? = some c6rA
      ∧ c6rB ∈ (cleanUp exC6).filter (fun _ => true)
      ∧ ¬ c6rA.date ≤ c6rB.date :=
  ⟨by decide, by decide, by decide⟩

/-- Witness for the amended C6: the location-A subset of the cleaned table. -/
theorem c6_witness :
    (∀ r ∈ (cleanUp exC6).filter (fun r => r.location == "A"), r.location = "A")
      ∧ (List.Sorted keyLe (cleanUp exC6)
        ∧ (∀ a, ((cleanUp exC6).filter (fun r => r.location == "A")).head? = some a →
            ∀ b ∈ (cleanUp exC6).filter (fun r => r.location == "A"), a.date ≤ b.date)
        ∧ (∀ a, ((cleanUp exC6).filter (fun r => r.location == "A")).getLast? = some a →
            ∀ b ∈ (cleanUp exC6).filter (fun r => r.location == "A"), b.date ≤ a.date)) :=
  ⟨by decide, c6_cleanup_sorted exC6 (fun r => r.location == "A") "A" (by decide)⟩

/-! Claim theorems for the reader pipeline (read_in_data.py). -/

theorem ann_getElem {df : List LRow} {i : ℕ} {r : LRow} (hr : df[i]? = some r) :
    (getDfWithOutbreakStartDateAndDaysSince df)[i]? = some
      { base := r, outbreakStart := outbreakStartFor df (outbreakKey r),
        daysSince := (outbreakStartFor df (outbreakKey r)).map (fun d => r.date - d) } := by
  unfold getDfWithOutbreakStartDateAndDaysSince
  rw [List.getElem?_map, hr]
  rfl

theorem expand_getElem_left {df : List CRow} {i : ℕ} {r : CRow}
    (hr : df[i]? = some r) :
    (appendPercapitaStageCount df)[i]? = some (totalRow r) := by
  have hi : i < df.length := (List.getElem?_eq_some_iff.mp hr).1
  unfold appendPercapitaStageCount
  rw [List.getElem?_append_left (by rw [List.length_map]; exact hi),
    List.getElem?_map, hr]
  rfl

theorem expand_getElem_right {df : List CRow} {i : ℕ} {r : CRow}
    (hr : df[i]? = some r) :
    (appendPercapitaStageCount df)[df.length + i]? = some (perCapitaRow r) := by
  unfold appendPercapitaStageCount
  rw [List.getElem?_append_right (by rw [List.length_map]; omega),
    List.length_map]
  have h2 : df.length + i - df.length = i := by omega
  rw [h2, List.getElem?_map, hr]
  rfl

/-- C2: the outbreak annotator assigns, to every row, the minimum date of
its (COUNTRY, STATE, LOCATION_NAME, CASE_TYPE) group among the rows whose
case count reaches the case-type threshold, with the thresholds fixed at 100
(absolute confirmed), 1e-5 (per-capita confirmed), 25 (absolute deaths) and
1e-6 (per-capita deaths); a group that never crosses gets null in both
appended columns and nothing fails. -/
theorem c2_outbreak_start (df : List LRow) (i : ℕ) (r : LRow)
    (hr : df[i]? = some r) :
    ∃ a, (getDfWithOutbreakStartDateAndDaysSince df)[i]? = some a
      ∧ outbreakStartSpec df r a
      ∧ thresholdFor confirmedCT = some 100
      ∧ thresholdFor confirmedPerCapitaCT = some (1 / 100000)
      ∧ thresholdFor deathsCT = some 25
      ∧ thresholdFor deathsPerCapitaCT = some (1 / 1000000) := by
  refine ⟨_, ann_getElem hr, ?_, rfl, rfl, rfl, rfl⟩
  unfold outbreakStartSpec
  constructor
  · intro d
    show outbreakStartFor df (outbreakKey r) = some d ↔ _
    unfold outbreakStartFor
    rw [minQ_eq_some_iff]
    constructor
    · rintro ⟨hdmem, hdle⟩
      constructor
      · rcases List.mem_map.mp hdmem with ⟨x, hx, hxd⟩
        rcases List.mem_filter.mp hx with ⟨hxdf, hxc⟩
        rw [Bool.and_eq_true] at hxc
        exact ⟨x, hxdf, by simpa using hxc.2, hxc.1, hxd⟩
      · intro x hxdf hkey hcross
        apply hdle
        apply List.mem_map.mpr
        refine ⟨x, List.mem_filter.mpr ⟨hxdf, ?_⟩, rfl⟩
        rw [Bool.and_eq_true]
        exact ⟨hcross, by simp [hkey]⟩
    · rintro ⟨⟨x, hxdf, hkey, hcross, hxd⟩, hmin⟩
      constructor
      · apply List.mem_map.mpr
        refine ⟨x, List.mem_filter.mpr ⟨hxdf, ?_⟩, hxd⟩
        rw [Bool.and_eq_true]
        exact ⟨hcross, by simp [hkey]⟩
      · intro b hb
        rcases List.mem_map.mp hb with ⟨y, hy, hyb⟩
        rcases List.mem_filter.mp hy with ⟨hydf, hyc⟩
        rw [Bool.and_eq_true] at hyc
        rw [← hyb]
        exact hmin y hydf (by simpa using hyc.2) hyc.1
  · intro hnone
    have hempty : df.filter
        (fun x => crossesThreshold x && (outbreakKey x == outbreakKey r)) = [] := by
      apply List.filter_eq_nil_iff.mpr
      intro x hx
      rw [Bool.and_eq_true]
      rintro ⟨hc, hk⟩
      have hk2 : outbreakKey x = outbreakKey r := by simpa using hk
      rw [hnone x hx hk2] at hc
      exact absurd hc (by simp)
    have h0 : outbreakStartFor df (outbreakKey r) = none := by
      unfold outbreakStartFor
      rw [hempty]
      rfl
    constructor
    · exact h0
    · show (outbreakStartFor df (outbreakKey r)).map (fun d => r.date - d) = none
      rw [h0]
      rfl

/-- Witness for C2: on the concrete table the theorem pins the outbreak
start of the group of the first row. -/
theorem c2_witness :
    exC2[0]? = some c2r1
      ∧ ∃ a, (getDfWithOutbreakStartDateAndDaysSince exC2)[0]? = some a
        ∧ outbreakStartSpec exC2 c2r1 a
        ∧ thresholdFor confirmedCT = some 100
        ∧ thresholdFor confirmedPerCapitaCT = some (1 / 100000)
        ∧ thresholdFor deathsCT = some 25
        ∧ thresholdFor deathsPerCapitaCT = some (1 / 1000000) :=
  ⟨rfl, c2_outbreak_start exC2 0 c2r1 rfl⟩

/-- C10: a row whose CASE_TYPE is outside the four threshold-mapped ones is
not an error for the annotator: its left merge sees a null threshold, the
threshold comparison is false, and the row ends with null
outbreak_start_date and days_since_outbreak; the strict-enum error path of
constants.py is never involved. -/
theorem c10_unmapped_case_types (df : List LRow) (i : ℕ) (r : LRow)
    (hr : df[i]? = some r)
    (hct : r.caseType ≠ confirmedCT ∧ r.caseType ≠ confirmedPerCapitaCT
      ∧ r.caseType ≠ deathsCT ∧ r.caseType ≠ deathsPerCapitaCT) :
    ∃ a, (getDfWithOutbreakStartDateAndDaysSince df)[i]? = some a
      ∧ a.outbreakStart = none ∧ a.daysSince = none
      ∧ thresholdFor r.caseType = none := by
  obtain ⟨h1, h2, h3, h4⟩ := hct
  have hth : thresholdFor r.caseType = none := by
    unfold thresholdFor
    rw [if_neg h1, if_neg h2, if_neg h3, if_neg h4]
  have hempty : df.filter
      (fun x => crossesThreshold x && (outbreakKey x == outbreakKey r)) = [] := by
    apply List.filter_eq_nil_iff.mpr
    intro x hx
    rw [Bool.and_eq_true]
    rintro ⟨hc, hk⟩
    have hk2 : outbreakKey x = outbreakKey r := by simpa using hk
    have hctx : x.caseType = r.caseType := congrArg (fun t => t.2.2.2) hk2
    have hthx : thresholdFor x.caseType = none := by rw [hctx]; exact hth
    unfold crossesThreshold at hc
    rw [hthx] at hc
    cases hcc : x.caseCount <;> rw [hcc] at hc <;> simp at hc
  have h0 : outbreakStartFor df (outbreakKey r) = none := by
    unfold outbreakStartFor
    rw [hempty]
    rfl
  refine ⟨_, ann_getElem hr, h0, ?_, hth⟩
  show (outbreakStartFor df (outbreakKey r)).map (fun d => r.date - d) = none
  rw [h0]
  rfl

/-- Witness for C10 at a concrete Tested row. -/
theorem c10_witness :
    exC10[0]? = some c10r
      ∧ (c10r.caseType ≠ confirmedCT ∧ c10r.caseType ≠ confirmedPerCapitaCT
        ∧ c10r.caseType ≠ deathsCT ∧ c10r.caseType ≠ deathsPerCapitaCT)
      ∧ ∃ a, (getDfWithOutbreakStartDateAndDaysSince exC10)[0]? = some a
        ∧ a.outbreakStart = none ∧ a.daysSince = none
        ∧ thresholdFor c10r.caseType = none :=
  ⟨rfl, by decide, c10_unmapped_case_types exC10 0 c10r rfl (by decide)⟩

/-- C5: the outbreak annotator is a frame-preserving append: the output has
the same rows in the same order (its bases are exactly the input) and the
same length; the only additions are the two new columns of `ARow`. -/
theorem c5_annotator_frame (df : List LRow) :
    (getDfWithOutbreakStartDateAndDaysSince df).map ARow.base = df
      ∧ (getDfWithOutbreakStartDateAndDaysSince df).length = df.length := by
  constructor
  · unfold getDfWithOutbreakStartDateAndDaysSince
    rw [List.map_map]
    exact List.map_id df
  · unfold getDfWithOutbreakStartDateAndDaysSince
    exact List.length_map _ _

/-- Witness for C5 at the concrete annotator input. -/
theorem c5_witness :
    (getDfWithOutbreakStartDateAndDaysSince exC2).map ARow.base = exC2
      ∧ (getDfWithOutbreakStartDateAndDaysSince exC2).length = exC2.length :=
  c5_annotator_frame exC2

/-- C4: the per-capita expander returns exactly twice as many rows; the
first half repeats every original row unchanged on (location, date,
case_type) and the count; the second half remaps the case type through the
per-capita map, which sends confirmed and deaths to their per-capita
counterparts and is the identity elsewhere. -/
theorem c4_expansion (df : List CRow) :
    (appendPercapitaStageCount df).length = 2 * df.length
      ∧ (∀ (i : ℕ) (r : CRow), df[i]? = some r →
          ∃ e : ERow, (appendPercapitaStageCount df)[i]? = some e
            ∧ e.country = r.country ∧ e.state = r.state ∧ e.date = r.date
            ∧ e.caseType = r.caseType ∧ e.caseCount = PCVal.fin (r.caseCount : ℚ)
            ∧ e.population = r.population)
      ∧ (∀ (i : ℕ) (r : CRow), df[i]? = some r →
          ∃ e : ERow, (appendPercapitaStageCount df)[df.length + i]? = some e
            ∧ e.caseType = perCapitaCaseType r.caseType)
      ∧ perCapitaCaseType confirmedCT = confirmedPerCapitaCT
      ∧ perCapitaCaseType deathsCT = deathsPerCapitaCT
      ∧ (∀ ct, ct ≠ confirmedCT → ct ≠ deathsCT → perCapitaCaseType ct = ct) := by
  refine ⟨?_, ?_, ?_, rfl, rfl, ?_⟩
  · unfold appendPercapitaStageCount
    rw [List.length_append, List.length_map, List.length_map]
    omega
  · intro i r hr
    exact ⟨totalRow r, expand_getElem_left hr, rfl, rfl, rfl, rfl, rfl, rfl⟩
  · intro i r hr
    exact ⟨perCapitaRow r, expand_getElem_right hr, rfl⟩
  · intro ct hc hd
    unfold perCapitaCaseType
    rw [if_neg hc, if_neg hd]

/-- Witness for C4 at a one-row table. -/
theorem c4_witness :
    (appendPercapitaStageCount exC4).length = 2 * exC4.length
      ∧ (∃ e, (appendPercapitaStageCount exC4)[0]? = some e
          ∧ e.country = c4r.country ∧ e.state = c4r.state ∧ e.date = c4r.date
          ∧ e.caseType = c4r.caseType ∧ e.caseCount = PCVal.fin (c4r.caseCount : ℚ)
          ∧ e.population = c4r.population)
      ∧ (∃ e, (appendPercapitaStageCount exC4)[exC4.length + 0]? = some e
          ∧ e.caseType = perCapitaCaseType c4r.caseType) :=
  ⟨(c4_expansion exC4).1, (c4_expansion exC4).2.1 0 c4r rfl,
    (c4_expansion exC4).2.2.1 0 c4r rfl⟩

/-- C3 (amended): every per-capita duplicate row carries the original count
divided by the row population: a null population propagates to a null (NA)
count, a nonzero population gives the exact quotient, and a zero population
gives a non-finite IEEE value — NaN when the count is 0, a signed infinity
otherwise — rather than a null; no case is an error. -/
theorem c3_percapita_division (df : List CRow) (i : ℕ) (r : CRow)
    (hr : df[i]? = some r) :
    ∃ e, (appendPercapitaStageCount df)[df.length + i]? = some e
      ∧ e.caseCount = divPop r.caseCount r.population
      ∧ (r.population = none → e.caseCount = PCVal.na)
      ∧ (∀ p, r.population = some p → p ≠ 0 →
          e.caseCount = PCVal.fin ((r.caseCount : ℚ) / (p : ℚ)))
      ∧ (r.population = some 0 → e.caseCount = PCVal.nan
          ∨ e.caseCount = PCVal.posInf ∨ e.caseCount = PCVal.negInf) := by
  refine ⟨perCapitaRow r, expand_getElem_right hr, rfl, ?_, ?_, ?_⟩
  · intro h
    show divPop r.caseCount r.population = PCVal.na
    rw [h]
    rfl
  · intro p hp hp0
    show divPop r.caseCount r.population = _
    rw [hp]
    simp only [divPop]
    rw [if_neg hp0]
  · intro h
    show divPop r.caseCount r.population = PCVal.nan
        ∨ divPop r.caseCount r.population = PCVal.posInf
        ∨ divPop r.caseCount r.population = PCVal.negInf
    rw [h]
    simp only [divPop, if_true]
    by_cases hc : r.caseCount = 0
    · rw [if_pos hc]
      exact Or.inl rfl
    · rw [if_neg hc]
      by_cases hc2 : 0 < r.caseCount
      · rw [if_pos hc2]
        exact Or.inr (Or.inl rfl)
      · rw [if_neg hc2]
        exact Or.inr (Or.inr rfl)

/-- C3 counterexample: dividing the positive count 5 by a zero population
yields the definite value +inf, which is neither the missing value NA nor
NaN: the zero-population case does not produce a null per-capita value. -/
theorem c3_counterexample :
    ((appendPercapitaStageCount [cxC3])[1]?).map ERow.caseCount = some PCVal.posInf
      ∧ PCVal.posInf ≠ PCVal.na ∧ PCVal.posInf ≠ PCVal.nan :=
  ⟨by decide, by decide, by decide⟩

/-- Witness for the amended C3 at a one-row table with a null population. -/
theorem c3_witness :
    exC3[0]? = some c3r
      ∧ ∃ e, (appendPercapitaStageCount exC3)[exC3.length + 0]? = some e
        ∧ e.caseCount = divPop c3r.caseCount c3r.population
        ∧ (c3r.population = none → e.caseCount = PCVal.na)
        ∧ (∀ p, c3r.population = some p → p ≠ 0 →
            e.caseCount = PCVal.fin ((c3r.caseCount : ℚ) / (p : ℚ)))
        ∧ (c3r.population = some 0 → e.caseCount = PCVal.nan
            ∨ e.caseCount = PCVal.posInf ∨ e.caseCount = PCVal.negInf) :=
  ⟨rfl, c3_percapita_division exC3 0 c3r rfl⟩

end Covid
